import Mathlib

/-!
Verification of the memory-access recovery pipeline of `src/lib/Analyze.cpp`
(`anvill` namespace): constant-base discovery (`FindConstantBases`), the
memory-reference scan (`FindMemoryReferences`), per-function stack-frame
synthesis and use rewriting (`RecoveryMemoryAccesses`), and the lowering of
`__remill` memory intrinsics (`ReplaceBarrier`, `ReplaceMemReadOp`,
`ReplaceMemWriteOp`, `LowerMemOps`).

The LLVM types and values that the pass manipulates are shallowly embedded:
machine integers are `Nat` with explicit reductions modulo `2 ^ 16`
(the `uint16_t` `Cell::size`), `2 ^ 32` (the `i32` GEP index constant) and
`2 ^ 64` (`uint64_t` address arithmetic).
-/

namespace AnvillAnalyze

/-- The subset of `llvm::Type` that the claims under verification exercise:
integer types, `float`/`double`/`x86_fp80`, pointers (with address space)
and arrays.  Mirrors the types produced by `llvm::Type::getInt8Ty` etc. in
`Analyze.cpp`.  The synthesized frame aggregate (`llvm::StructType::get`)
is represented by its field list (`List LTy`) rather than by a dedicated
constructor. -/
inductive LTy where
  | int (bits : Nat)
  | flt
  | dbl
  | fp80
  | ptr (pointee : LTy) (addrSpace : Nat)
  | arr (n : Nat) (elem : LTy)
  deriving DecidableEq

/-- `llvm::alignTo`: round `n` up to a multiple of `a` (identity for `a = 0`). -/
def alignTo (n a : Nat) : Nat :=
  if a = 0 then n else ((n + a - 1) / a) * a

/-- `llvm::DataLayout::getABITypeAlignment` under the default x86-64 data
layout used by the lifted modules: `iN` aligns to the smallest power of two
holding its bytes (capped at 8), `float`/`double` to their size, `x86_fp80`
to 16, pointers to 8, arrays to their element alignment. -/
def abiAlign : LTy → Nat
  | .int bits =>
      if bits ≤ 8 then 1 else if bits ≤ 16 then 2 else if bits ≤ 32 then 4 else 8
  | .flt => 4
  | .dbl => 8
  | .fp80 => 16
  | .ptr _ _ => 8
  | .arr _ t => abiAlign t

/-- `llvm::DataLayout::getTypeAllocSize` under the same x86-64 data layout:
store size rounded up to the ABI alignment; arrays multiply. -/
def allocSize : LTy → Nat
  | .int bits => alignTo ((bits + 7) / 8) (abiAlign (.int bits))
  | .flt => 4
  | .dbl => 8
  | .fp80 => 16
  | .ptr _ _ => 8
  | .arr n t => n * allocSize t

/-- `Cell` from `Analyze.cpp`: one recovered memory-access site.  The
`llvm::ConstantInt *address_val` is represented by its numeric value
(`address_const`, the `getZExtValue`) together with the bit width of its
type (`addr_width`, the width the rewritten access is `ptrtoint`-converted
back to).  The `llvm::User *user` is a plain numeric identifier.  `size` is the
`uint16_t` field. -/
structure Cell where
  type : LTy := .int 8
  user : Nat := 0
  address_const : Nat := 0
  addr_width : Nat := 64
  size : Nat := 0
  is_load : Bool := false
  is_store : Bool := false
  is_volatile : Bool := false
  is_atomic : Bool := false
  deriving DecidableEq

/-- The `popularity` table of `RecoveryMemoryAccesses`:
`popularity[cell.address_const][cell.type] += 1` over a list of cells,
i.e. the number of cells at exactly this address with exactly this type. -/
def popularityOf (cells : List Cell) (addr : Nat) (ty : LTy) : Nat :=
  (cells.filter (fun c => decide (c.address_const = addr ∧ c.type = ty))).length

/-- The `order_cells` lambda of `RecoveryMemoryAccesses` (Analyze.cpp):
ascending `address_const`; for equal addresses, equal sizes compare by
type (equal types are unordered, otherwise higher ABI alignment first,
then higher popularity first), and unequal sizes put the larger first.
The popularity map is abstracted as a function argument. -/
def order_cells (pop : Nat → LTy → Nat) (a b : Cell) : Bool :=
  if a.address_const < b.address_const then
    true
  else if a.address_const > b.address_const then
    false
  else if a.size = b.size then
    if a.type = b.type then
      false
    else if abiAlign a.type = abiAlign b.type then
      pop a.address_const a.type > pop a.address_const b.type
    else
      abiAlign a.type > abiAlign b.type
  else
    a.size > b.size

/-- The unary opcodes through which `FindConstantBases` recurses on
operand 0 only: `GetElementPtr`, `BitCast`, `IntToPtr`, `PtrToInt`,
`ZExt`, `SExt`. -/
inductive UnOp where
  | getelementptr
  | bitcast
  | inttoptr
  | ptrtoint
  | zext
  | sext
  deriving DecidableEq

/-- One node of the def-use value graph walked by `FindConstantBases`.
Nodes are indexed by `Nat` identifiers (standing for `llvm::Value *`).
`constInt` is an `llvm::ConstantInt` with its bit width and value;
`phi` lists the incoming value ids; `unop` covers the six opcodes that
recurse into operand 0; `sub` recurses into operand 0 only; `addOrOr`
covers `Add`/`And`/`Or`, which recurse into both operands; `other` is any
value the `switch` ignores (the `default` case, and non-instruction,
non-constant values). -/
inductive VNode where
  | constInt (width : Nat) (val : Nat)
  | phi (incoming : List Nat)
  | unop (op : UnOp) (operand : Nat)
  | sub (op0 op1 : Nat)
  | addOrOr (op0 op1 : Nat)
  | other
  deriving DecidableEq

/-- A value graph: total map from value ids to nodes. -/
def VGraph := Nat → VNode

/-- `bases[user] = const_val`: insert-or-overwrite into the
`std::unordered_map<llvm::User *, llvm::ConstantInt *>`, represented as an
association list from user id to constant-node id. -/
def updateAssoc (l : List (Nat × Nat)) (k v : Nat) : List (Nat × Nat) :=
  match l with
  | [] => [(k, v)]
  | (k', v') :: rest =>
      if k' = k then (k, v) :: rest else (k', v') :: updateAssoc rest k v

/-- `FindConstantBases` (Analyze.cpp): depth-first backward walk from
`val`, with `user` the consumer through which `val` was reached.  The
`seen` set (C++ `std::unordered_set<llvm::Value *>`) is keyed by the value
alone.  A constant integer is recorded in `bases` against `user`.  `PHI`
recurses into every incoming value passing the PHI node itself as the new
user; the unary opcodes, `Sub` (operand 0 only) and `Add`/`And`/`Or`
(both operands) pass the instruction itself as the new user.  The C++
recursion terminates because `seen` grows; the embedding carries explicit
fuel, returning the accumulators unchanged when it runs out. -/
def FindConstantBases (g : VGraph) :
    Nat → Nat → Nat → List (Nat × Nat) → List Nat →
    List (Nat × Nat) × List Nat
  | 0, _, _, bases, seen => (bases, seen)
  | fuel + 1, user, val, bases, seen =>
    if seen.contains val then
      (bases, seen)
    else
      let seen := val :: seen
      match g val with
      | .constInt _ _ => (updateAssoc bases user val, seen)
      | .phi incoming =>
          incoming.foldl
            (fun acc operand => FindConstantBases g fuel val operand acc.1 acc.2)
            (bases, seen)
      | .unop _ operand => FindConstantBases g fuel val operand bases seen
      | .sub op0 _ => FindConstantBases g fuel val op0 bases seen
      | .addOrOr op0 op1 =>
          let acc := FindConstantBases g fuel val op0 bases seen
          FindConstantBases g fuel val op1 acc.1 acc.2
      | .other => (bases, seen)

/-- The operands that the `switch` of `FindConstantBases` recurses into
for a given node: all incoming values of a `PHI`, operand 0 of the unary
opcodes and `Sub`, both operands of `Add`/`And`/`Or`. -/
def scannedOperands (g : VGraph) (u : Nat) : List Nat :=
  match g u with
  | .phi incoming => incoming
  | .unop _ operand => [operand]
  | .sub op0 _ => [op0]
  | .addOrOr op0 op1 => [op0, op1]
  | _ => []

/-- `getZExtValue` of a constant-integer node (0 for non-constants, which
never end up in `bases`). -/
def constValue (g : VGraph) (k : Nat) : Nat :=
  match g k with
  | .constInt width v => v % 2 ^ width
  | _ => 0

/-- Bit width of a constant-integer node's type. -/
def constWidth (g : VGraph) (k : Nat) : Nat :=
  match g k with
  | .constInt width _ => width
  | _ => 0

/-- One cell of the per-site base loop of `FindMemoryReferences`
(Analyze.cpp): `cell.user = base.first`,
`cell.address_val = base.second` (numeric value and bit width), and
`cell.size = static_cast<uint16_t>(dl.getTypeAllocSize(cell.type))`,
i.e. the allocation size reduced modulo `2^16`. -/
def siteCell (g : VGraph) (ty : LTy) (base : Nat × Nat) : Cell :=
  { type := ty
    user := base.1
    address_const := constValue g base.2
    addr_width := constWidth g base.2
    size := allocSize ty % 2 ^ 16 }

/-- The per-site tail of `FindMemoryReferences` (Analyze.cpp): once an
access site's `cell.type` is known, `FindConstantBases` runs on the
address value with the site's instruction as the initial user, and each
entry of `bases` yields one cell, pushed onto `stack_cells` when
`program.FindByte(cell.address_const).IsStack()` holds and onto
`global_cells` otherwise.  `isStack` stands for the `Program` byte
map. -/
def FindMemoryReferencesSite (isStack : Nat → Bool) (g : VGraph) (fuel : Nat)
    (instId : Nat) (ty : LTy) (addrVal : Nat) :
    List Cell × List Cell :=
  let bases := (FindConstantBases g fuel instId addrVal [] []).1
  bases.foldl
    (fun acc base =>
      let cell := siteCell g ty base
      if isStack cell.address_const then
        (acc.1 ++ [cell], acc.2)
      else
        (acc.1, acc.2 ++ [cell]))
    ([], [])

/-- `min_stack_address` of `RecoveryMemoryAccesses`: starts at
`*program.InitialStackPointer()` and folds `std::min` over the cells'
addresses. -/
def minStackAddress (spInit : Nat) (cells : List Cell) : Nat :=
  cells.foldl (fun m c => min m c.address_const) spInit

/-- `max_stack_address` of `RecoveryMemoryAccesses`: starts at
`*program.InitialStackPointer()` and folds `std::max` over
`cell.address_const + cell.size` (uint64 arithmetic). -/
def maxStackAddress (spInit : Nat) (cells : List Cell) : Nat :=
  cells.foldl (fun m c => max m ((c.address_const + c.size) % 2 ^ 64)) spInit

/-- `uint64_t` subtraction: `(a - b) mod 2^64` for `a, b < 2^64`. -/
def sub64 (a b : Nat) : Nat :=
  (a + 2 ^ 64 - b % 2 ^ 64) % 2 ^ 64

/-- The frame-layout walk of `RecoveryMemoryAccesses` (Analyze.cpp), over
the sorted cells of one function.  `running` is the `uint64_t`
`running_addr`.  When `running < cell.address_const` an
`[n x i8]` padding entry is pushed (`n = cell.address_const - running`)
and `running` becomes the cell's address; when
`running > cell.address_const` the cell is skipped with a `LOG(ERROR)`
diagnostic (returned in the second component); otherwise the cell's own
type is pushed and `running_addr -= cell.size` (uint64).  Note that after
the padding branch control falls through to pushing the cell's type and
decrementing `running` as well. -/
def frameGo (running : Nat) : List Cell → List LTy × List Cell
  | [] => ([], [])
  | c :: rest =>
    if running < c.address_const then
      let padding := c.address_const - running
      let res := frameGo (sub64 c.address_const c.size) rest
      (.arr padding (.int 8) :: c.type :: res.1, res.2)
    else if c.address_const < running then
      let res := frameGo running rest
      (res.1, c :: res.2)
    else
      let res := frameGo (sub64 running c.size) rest
      (c.type :: res.1, res.2)

/-- Frame synthesis for one function: `running_addr` starts at
`min_stack_address - 128` (the amd64 ABI redzone, uint64 arithmetic) and
the walk produces the field list of the `llvm::StructType` frame together
with the list of skipped (diagnostic-logged) cells. -/
def buildFrameTypes (minAddr : Nat) (cells : List Cell) : List LTy × List Cell :=
  frameGo (sub64 minAddr 128) cells

/-- Lookup in the `offset_cache` association list (address to GEP id). -/
def assocFind (l : List (Nat × Nat)) (k : Nat) : Option Nat :=
  match l with
  | [] => none
  | (k', v) :: rest => if k' = k then some v else assocFind rest k

/-- The `i32` GEP index constant built for a cell's rewrite:
`llvm::ConstantInt::get(i32_type, cell.address_const - min_stack_address)`
— a `uint64_t` subtraction truncated to the 32-bit constant's width. -/
def gepOffset (minAddr addr : Nat) : Nat :=
  sub64 addr minAddr % 2 ^ 32

/-- The use-rewriting loop of `RecoveryMemoryAccesses` (Analyze.cpp):
walks every cell (the cells are modeled as carrying one matching use edge
each, the `(address_val, user)` pair recorded for the cell); looks its
address up in `offset_cache`, creating a new `CreateInBoundsGEP` into the
`i8`-cast frame at the `i32` offset constant on a miss; the matching use
is then set to `CreatePtrToInt(gep, cell.address_val->getType())`.
State: `cache` is `offset_cache` (address to GEP index), `geps` records
each created GEP's offset constant in creation order, `rws` records per
cell the rewritten use as (user, bit width of the `ptrtoint` result, GEP
index). -/
def rwGo (minAddr : Nat) :
    List Cell → List (Nat × Nat) → List Nat → List (Nat × Nat × Nat) →
    List (Nat × Nat) × List Nat × List (Nat × Nat × Nat)
  | [], cache, geps, rws => (cache, geps, rws)
  | c :: rest, cache, geps, rws =>
    match assocFind cache c.address_const with
    | some gi =>
        rwGo minAddr rest cache geps (rws ++ [(c.user, c.addr_width, gi)])
    | none =>
        let gi := geps.length
        rwGo minAddr rest ((c.address_const, gi) :: cache)
          (geps ++ [gepOffset minAddr c.address_const])
          (rws ++ [(c.user, c.addr_width, gi)])

/-- The rewrite loop run from an empty `offset_cache`, returning the
created GEP offsets and the per-cell rewrites. -/
def rewriteLoop (minAddr : Nat) (cells : List Cell) :
    List Nat × List (Nat × Nat × Nat) :=
  (rwGo minAddr cells [] [] []).2

/-- Modelled from the spec: the global-cell merge step of the
GlobalVariableSynthesizer is missing from `src/lib/Analyze.cpp` (the
global-cell rewrite block of `RecoveryMemoryAccesses` is commented out and
contains no merging; only the popularity table is rebuilt), so the merge
is modelled from the spec's words: "Merge contiguous cells: if the next
cell's address falls within the current aggregate's bounds, absorb it
(padding with single-byte entries if it straddles the boundary); if
adjacent, append; otherwise close the aggregate and start a new one at its
address."  Cells are (address, byte size) pairs sorted by ascending
address; aggregates are (base address, total byte size) pairs. -/
def mergeGlobalCells : List (Nat × Nat) → List (Nat × Nat)
  | [] => []
  | (a, s) :: rest => mergeGo a s rest
where
  /-- Fold the remaining cells into the current aggregate
  `(base, size)`: a cell starting at or before `base + size` (overlap or
  touching) is absorbed, extending the aggregate to cover it; a cell past
  `base + size` (a gap) closes the aggregate and starts a new one. -/
  mergeGo (base size : Nat) : List (Nat × Nat) → List (Nat × Nat)
    | [] => [(base, size)]
    | (a, s) :: rest =>
      if a ≤ base + size then
        mergeGo base (max size (a + s - base)) rest
      else
        (base, size) :: mergeGo a s rest

/-- The values built and inspected by the memory-intrinsic lowering
(`ReplaceBarrier`, `ReplaceMemReadOp`, `ReplaceMemWriteOp`).
`fromPtrToInt p as` is a value produced by an `llvm::PtrToIntInst` whose
pointer operand is `p` and whose pointer address space is `as` (the
pattern matched by `llvm::dyn_cast<llvm::PtrToIntInst>(addr)`);
`rawVal` is any other pre-existing value (call arguments, memory-state
tokens).  The remaining constructors are the instructions the lowering
builds with `llvm::IRBuilder`. -/
inductive MVal where
  | fromPtrToInt (ptrOperand : MVal) (addrSpace : Nat)
  | rawVal (id : Nat)
  | bitcast (v : MVal) (toTy : LTy)
  | intToPtr (v : MVal) (toTy : LTy)
  | load (p : MVal)
  | fptrunc (v : MVal) (toTy : LTy)
  | fpext (v : MVal) (toTy : LTy)
  deriving DecidableEq

/-- An `llvm::Function` of the module as the lowering sees it: its name,
whether it is a pure declaration (`isDeclaration`), and its return type
(the `FPTrunc` target of `ReplaceMemReadOp` for `x86_fp80`). -/
structure MFunc where
  name : String
  isDeclaration : Bool
  retTy : LTy
  deriving DecidableEq

/-- A call instruction: the name of the called function and the argument
list. -/
structure MCall where
  callee : String
  args : List MVal
  deriving DecidableEq

/-- The module surface the lowering touches: its functions and call
instructions. -/
structure MModule where
  funcs : List MFunc
  calls : List MCall
  deriving DecidableEq

/-- `llvm::Module::getFunction`: the function with the given name, if
any. -/
def getFunction (m : MModule) (name : String) : Option MFunc :=
  m.funcs.find? (fun f => f.name = name)

/-- `remill::CallersOf`: every call instruction whose callee has the
given name. -/
def CallersOf (m : MModule) (name : String) : List MCall :=
  m.calls.filter (fun c => c.callee = name)

/-- One lowered call site: the original call, the value that
`replaceAllUsesWith` substituted for it, whether `eraseFromParent` ran,
and the `store` the lowering emitted (for writes). -/
structure LoweredCall where
  call : MCall
  replacedWith : MVal
  erased : Bool
  newStore : Option (MVal × MVal)
  deriving DecidableEq

/-- The address-to-pointer step shared by `ReplaceMemReadOp` and
`ReplaceMemWriteOp`: if the address operand is a `PtrToIntInst`, bitcast
its pointer operand to `val_type *` in the same address space; otherwise
`CreateIntToPtr` the address to `val_type *` in address space 0. -/
def mkMemOpPtr (valType : LTy) (addr : MVal) : MVal :=
  match addr with
  | .fromPtrToInt p as => .bitcast p (.ptr valType as)
  | a => .intToPtr a (.ptr valType 0)

/-- Per-call body of `ReplaceMemReadOp`: load through the typed pointer
built from argument 1, `CreateFPTrunc` to the intrinsic's return type when
`val_type` is `x86_fp80`, replace all uses of the call with that value,
and erase the call. -/
def lowerReadCall (f : MFunc) (valType : LTy) (c : MCall) : LoweredCall :=
  let addr := c.args.getD 1 (.rawVal 0)
  let ptr := mkMemOpPtr valType addr
  let val : MVal := .load ptr
  let val := if valType = .fp80 then .fptrunc val f.retTy else val
  { call := c, replacedWith := val, erased := true, newStore := none }

/-- Per-call body of `ReplaceMemWriteOp`: build the typed pointer from
argument 1, `CreateFPExt` argument 2 to `val_type` when it is `x86_fp80`,
emit the `store`, replace all uses of the call with argument 0 (the
pre-call memory-state value), and erase the call. -/
def lowerWriteCall (valType : LTy) (c : MCall) : LoweredCall :=
  let memPtr := c.args.getD 0 (.rawVal 0)
  let addr := c.args.getD 1 (.rawVal 0)
  let val := c.args.getD 2 (.rawVal 0)
  let ptr := mkMemOpPtr valType addr
  let val := if valType = .fp80 then .fpext val valType else val
  { call := c, replacedWith := memPtr, erased := true, newStore := some (val, ptr) }

/-- Per-call body of `ReplaceBarrier`: replace all uses of the call with
argument 0 (the memory-state value) and erase the call. -/
def lowerBarrierCall (c : MCall) : LoweredCall :=
  { call := c, replacedWith := c.args.getD 0 (.rawVal 0), erased := true,
    newStore := none }

/-- Erase every call to `name` from the module (the
`call_inst->eraseFromParent()` loop). -/
def eraseCallsTo (m : MModule) (name : String) : MModule :=
  { m with calls := m.calls.filter (fun c => ¬ c.callee = name) }

/-- `ReplaceBarrier` (Analyze.cpp): no function of that name means no
work; a non-declaration trips the `CHECK` (modeled as `Except.error`,
aborting the pipeline); otherwise every caller is replaced by its
memory-state argument and erased. -/
def ReplaceBarrier (m : MModule) (name : String) :
    Except String (MModule × List LoweredCall) :=
  match getFunction m name with
  | none => .ok (m, [])
  | some f =>
    if f.isDeclaration then
      .ok (eraseCallsTo m name, (CallersOf m name).map lowerBarrierCall)
    else
      .error ("Cannot lower already implemented memory intrinsic " ++ name)

/-- `ReplaceMemReadOp` (Analyze.cpp): as `ReplaceBarrier`, but each caller
is lowered to a typed `load` (see `lowerReadCall`). -/
def ReplaceMemReadOp (m : MModule) (name : String) (valType : LTy) :
    Except String (MModule × List LoweredCall) :=
  match getFunction m name with
  | none => .ok (m, [])
  | some f =>
    if f.isDeclaration then
      .ok (eraseCallsTo m name, (CallersOf m name).map (lowerReadCall f valType))
    else
      .error ("Cannot lower already implemented memory intrinsic " ++ name)

/-- `ReplaceMemWriteOp` (Analyze.cpp): as `ReplaceBarrier`, but each
caller is lowered to a typed `store` (see `lowerWriteCall`). -/
def ReplaceMemWriteOp (m : MModule) (name : String) (valType : LTy) :
    Except String (MModule × List LoweredCall) :=
  match getFunction m name with
  | none => .ok (m, [])
  | some f =>
    if f.isDeclaration then
      .ok (eraseCallsTo m name, (CallersOf m name).map (lowerWriteCall valType))
    else
      .error ("Cannot lower already implemented memory intrinsic " ++ name)

/-- Which lowering a `LowerMemOps` line performs. -/
inductive MemOpKind where
  | read (valType : LTy)
  | write (valType : LTy)
  | barrier
  deriving DecidableEq

/-- The straight-line body of `LowerMemOps` (Analyze.cpp) as the ordered
list of (intrinsic name, lowering) pairs it performs. -/
def memOps : List (String × MemOpKind) :=
  [ ("__remill_read_memory_8", .read (.int 8))
  , ("__remill_read_memory_16", .read (.int 16))
  , ("__remill_read_memory_32", .read (.int 32))
  , ("__remill_read_memory_64", .read (.int 64))
  , ("__remill_read_memory_f32", .read .flt)
  , ("__remill_read_memory_f64", .read .dbl)
  , ("__remill_write_memory_8", .write (.int 8))
  , ("__remill_write_memory_16", .write (.int 16))
  , ("__remill_write_memory_32", .write (.int 32))
  , ("__remill_write_memory_64", .write (.int 64))
  , ("__remill_write_memory_f32", .write .flt)
  , ("__remill_write_memory_f64", .write .dbl)
  , ("__remill_read_memory_f80", .read .fp80)
  , ("__remill_write_memory_f80", .write .fp80)
  , ("__remill_barrier_load_load", .barrier)
  , ("__remill_barrier_load_store", .barrier)
  , ("__remill_barrier_store_load", .barrier)
  , ("__remill_barrier_store_store", .barrier)
  , ("__remill_barrier_atomic_begin", .barrier)
  , ("__remill_barrier_atomic_end", .barrier) ]

/-- Dispatch one `LowerMemOps` line, keeping the mutated module. -/
def stepMemOp (m : MModule) (op : String × MemOpKind) : Except String MModule :=
  match op.2 with
  | .read t => (ReplaceMemReadOp m op.1 t).map (·.1)
  | .write t => (ReplaceMemWriteOp m op.1 t).map (·.1)
  | .barrier => (ReplaceBarrier m op.1).map (·.1)

/-- `LowerMemOps` (Analyze.cpp): the twenty lowering lines in program
order; a tripped `CHECK` aborts the whole pipeline (`Except.error`). -/
def LowerMemOps (m : MModule) : Except String MModule :=
  memOps.foldlM stepMemOp m

/-- Whether the module has a function of this name that is not a pure
declaration (i.e. has a body) — the exact condition under which the
`CHECK(func->isDeclaration())` of the three `Replace*` functions fires. -/
def hasDefinedFunc (m : MModule) (name : String) : Bool :=
  match getFunction m name with
  | some f => ¬ f.isDeclaration
  | none => false

/-- Whether an `Except` result is an error (a tripped `CHECK`). -/
def isErr {ε α : Type} : Except ε α → Bool
  | .error _ => true
  | .ok _ => false

/-! ## Helper lemmas -/

theorem sub64_eq_sub {a b : Nat} (hba : b ≤ a) (ha : a < 2 ^ 64) :
    sub64 a b = a - b := by
  have h64 : (2 : Nat) ^ 64 = 18446744073709551616 := by norm_num
  unfold sub64
  rw [h64] at *
  omega

/-- Whether an embedded LLVM type is a pointer type
(`llvm::Type::isPointerTy`). -/
def LTy.isPointerTy : LTy → Bool
  | .ptr _ _ => true
  | _ => false

/-- The property the `order_cells` comparator actually decides:
ascending address; at equal addresses, larger size first; at equal sizes
and distinct types, higher ABI alignment first, then higher popularity
first.  There is no pointer-versus-non-pointer step. -/
def orderSpec (pop : Nat → LTy → Nat) (a b : Cell) : Prop :=
  a.address_const < b.address_const ∨
    (a.address_const = b.address_const ∧
      ((a.size ≠ b.size ∧ b.size < a.size) ∨
        (a.size = b.size ∧ a.type ≠ b.type ∧
          (abiAlign b.type < abiAlign a.type ∨
            (abiAlign a.type = abiAlign b.type ∧
              pop a.address_const b.type < pop a.address_const a.type)))))

/-! ## Claim C5 -/

/-- A pointer-typed size-8 cell at address 4000. -/
def cellPtrX : Cell :=
  { type := .ptr (.int 64) 0, user := 0, address_const := 4000, size := 8 }

/-- An `i64`-typed size-8 cell at the same address 4000. -/
def cellI64X : Cell :=
  { type := .int 64, user := 0, address_const := 4000, size := 8 }

/-- An observed cell population: one pointer-typed cell and five
`i64`-typed cells at address 4000, making `i64` the more popular type
there. -/
def popCellsX : List Cell := cellPtrX :: List.replicate 5 cellI64X

/-- Claim C5, as frozen, is false on the code: the comparator has no
preference for pointer-typed cells.  Concretely, at one address two
size-8 cells — one typed `i64 *` (a pointer), one typed `i64` — with equal
ABI alignment (8) are ordered purely by popularity: with five `i64` cells
and one pointer cell observed at that address, `order_cells` puts the
`i64` cell first and refuses the pointer-first ordering the claim
requires. -/
theorem order_cells_pointer_pref_cex :
    cellPtrX.type.isPointerTy = true ∧
    cellI64X.type.isPointerTy = false ∧
    cellPtrX.address_const = cellI64X.address_const ∧
    cellPtrX.size = cellI64X.size ∧
    abiAlign cellPtrX.type = abiAlign cellI64X.type ∧
    popularityOf popCellsX 4000 cellI64X.type = 5 ∧
    popularityOf popCellsX 4000 cellPtrX.type = 1 ∧
    order_cells (popularityOf popCellsX) cellPtrX cellI64X = false ∧
    order_cells (popularityOf popCellsX) cellI64X cellPtrX = true := by
  decide

/-- Claim C5 (amended): the cell ordering comparator orders two cells by
(a) ascending constant address, then (b) descending byte size, then, for
equal size and distinct types, (c) higher ABI alignment, then higher
popularity (count of cells at that exact address sharing that exact
type); it has no pointer-over-non-pointer preference, and cells of equal
address, size and type are unordered. -/
theorem order_cells_amended (pop : Nat → LTy → Nat) (a b : Cell) :
    order_cells pop a b = true ↔ orderSpec pop a b := by
  unfold order_cells orderSpec
  split_ifs <;> simp_all <;> omega

/-! ## Claim C3 (spec-modelled: the merge code is absent from src) -/

/-- Claim C3: global cell merging.  Two global cells at addresses `0x1000`
(size 4) and `0x1004` (size 4) merge into one aggregate of size 8 at
`0x1000`; cells at `0x1000` (size 4) and `0x1008` (size 4) do not merge
and yield two separate globals; in general (for address-sorted cells)
touching or overlapping ranges merge into one aggregate and a gap ends an
aggregate.  Settled against `mergeGlobalCells`, which is modelled from the
spec because the global-cell merge step is missing from
`src/lib/Analyze.cpp`. -/
theorem merge_global_cells_claim :
    mergeGlobalCells [(4096, 4), (4100, 4)] = [(4096, 8)] ∧
    mergeGlobalCells [(4096, 4), (4104, 4)] = [(4096, 4), (4104, 4)] ∧
    (∀ a s1 b s2, b ≤ a + s1 →
      mergeGlobalCells [(a, s1), (b, s2)] = [(a, max s1 (b + s2 - a))]) ∧
    (∀ a s1 b s2, a + s1 < b →
      mergeGlobalCells [(a, s1), (b, s2)] = [(a, s1), (b, s2)]) := by
  refine ⟨by decide, by decide, ?_, ?_⟩
  · intro a s1 b s2 h
    simp [mergeGlobalCells, mergeGlobalCells.mergeGo, h]
  · intro a s1 b s2 h
    simp [mergeGlobalCells, mergeGlobalCells.mergeGo, Nat.not_le.mpr h]

/-- Witness for C3's general conjuncts at the concrete merging and
non-merging pairs. -/
theorem merge_global_cells_claim_witness :
    mergeGlobalCells [(4096, 4), (4100, 4)] = [(4096, max 4 (4100 + 4 - 4096))] ∧
    mergeGlobalCells [(4096, 4), (4112, 4)] = [(4096, 4), (4112, 4)] :=
  ⟨merge_global_cells_claim.2.2.1 4096 4 4100 4 (by decide),
   merge_global_cells_claim.2.2.2 4096 4 4112 4 (by decide)⟩

/-! ## Claim C2 -/

/-- The scenario's first cell: 8 bytes of `i64` at `SP_init - 16` for
`SP_init = 4096`. -/
def c2a : Cell :=
  { type := .int 64, user := 1, address_const := 4080, addr_width := 64, size := 8 }

/-- The scenario's second cell: 4 bytes of `i32` at `SP_init - 8`. -/
def c2b : Cell :=
  { type := .int 32, user := 2, address_const := 4088, addr_width := 64, size := 4 }

/-- Claim C2, as frozen, is false on the code: for the two disjoint cells
(8 bytes at `SP_init - 16`, 4 bytes at `SP_init - 8`, `SP_init = 4096`)
the synthesized frame fields are `{[128 x i8], i64, [16 x i8], i32}` —
the padding between the two cells is 16 bytes, not the 4 the claim names,
and not the 0-byte gap between the end of the first cell and the start of
the second (the cells are adjacent: that gap is 0).  The 16 arises because
`running_addr` moves *down* by `cell.size` after each emitted cell. -/
theorem frame_two_cells_cex :
    order_cells (popularityOf [c2a, c2b]) c2a c2b = true ∧
    minStackAddress 4096 [c2a, c2b] = 4080 ∧
    (buildFrameTypes 4080 [c2a, c2b]).1 =
      [.arr 128 (.int 8), .int 64, .arr 16 (.int 8), .int 32] ∧
    c2b.address_const - (c2a.address_const + c2a.size) = 0 ∧
    (buildFrameTypes 4080 [c2a, c2b]).1 ≠
      [.arr 128 (.int 8), .int 64, .arr 4 (.int 8), .int 32] := by
  decide

/-- Claim C2 (amended): for two disjoint stack cells sorted by ascending
address (the first at the function's minimum stack address), the frame
fields are `{[128 x i8] redzone padding, first type, padding, second
type}` where the inter-cell padding is `b.address - (a.address - a.size)`
bytes — the byte gap between the layout cursor (which moves down by the
emitted cell's size) and the start of the second cell — so the scenario's
frame is `{[128 x i8], i64, [16 x i8], i32}`. -/
theorem frame_two_cells_amended (spInit : Nat) (a b : Cell)
    (hab : a.address_const < b.address_const)
    (hsp : a.address_const ≤ spInit)
    (hred : 128 ≤ a.address_const)
    (hsz : a.size ≤ a.address_const)
    (hb : b.address_const < 2 ^ 64) :
    buildFrameTypes (minStackAddress spInit [a, b]) [a, b] =
      ([.arr 128 (.int 8), a.type,
        .arr (b.address_const - a.address_const + a.size) (.int 8), b.type],
       []) := by
  have ha : a.address_const < 2 ^ 64 := lt_trans hab hb
  have hmin : minStackAddress spInit [a, b] = a.address_const := by
    simp only [minStackAddress, List.foldl]
    omega
  rw [hmin]
  unfold buildFrameTypes
  rw [sub64_eq_sub hred ha]
  unfold frameGo
  rw [if_pos (by omega)]
  rw [sub64_eq_sub hsz ha]
  unfold frameGo
  rw [if_pos (by omega)]
  unfold frameGo
  have h1 : a.address_const - (a.address_const - 128) = 128 := by omega
  have h2 : b.address_const - (a.address_const - a.size) =
      b.address_const - a.address_const + a.size := by omega
  simp [h1, h2]

/-- Witness for C2's amended layout at the scenario's concrete cells. -/
theorem frame_two_cells_amended_witness :
    buildFrameTypes (minStackAddress 4096 [c2a, c2b]) [c2a, c2b] =
      ([.arr 128 (.int 8), c2a.type,
        .arr (c2b.address_const - c2a.address_const + c2a.size) (.int 8),
        c2b.type], []) :=
  frame_two_cells_amended 4096 c2a c2b (by decide) (by decide) (by decide)
    (by decide) (by decide)

/-! ## Claim C7 -/

/-- A cell whose address (0) lies behind the initial layout cursor: with
`min_stack_address = 0`, `running_addr = 0 - 128` wraps around `2^64` and
exceeds the cell's address, so the layout walk skips the cell. -/
def cBehind : Cell :=
  { type := .int 64, user := 7, address_const := 0, addr_width := 64, size := 8 }

/-- The rewrite list grows by exactly one entry per cell, skipped or not:
the use-rewriting loop of `RecoveryMemoryAccesses` iterates over all
cells again and never consults the layout walk's skip decision. -/
theorem rwGo_rws_length (minAddr : Nat) :
    ∀ (cells : List Cell) (cache : List (Nat × Nat)) (geps : List Nat)
      (rws : List (Nat × Nat × Nat)),
      (rwGo minAddr cells cache geps rws).2.2.length = rws.length + cells.length := by
  intro cells
  induction cells with
  | nil => intro cache geps rws; rfl
  | cons c rest ih =>
    intro cache geps rws
    unfold rwGo
    cases h : assocFind cache c.address_const with
    | some gi => simp [h, ih]; omega
    | none => simp [h, ih]; omega

/-- Claim C7, as frozen, is false on the code: a cell behind the layout
cursor is indeed skipped (with a diagnostic) and contributes no entry to
the frame type, but its address uses ARE rewritten: with
`SP_init = 64` and one stack cell at address 0, the frame type is the
empty struct (no fields at all), yet the rewrite loop still rewrites the
cell's use to a GEP at offset 0 into that empty frame — an offset range
([0, 8) for the 8-byte access) the frame does not contain. -/
theorem skipped_cell_rewritten_cex :
    minStackAddress 64 [cBehind] = 0 ∧
    buildFrameTypes 0 [cBehind] = ([], [cBehind]) ∧
    rewriteLoop 0 [cBehind] = ([0], [(7, 64, 0)]) ∧
    (rewriteLoop 0 [cBehind]).2 ≠ [] := by
  decide

/-- Claim C7 (amended): a stack cell behind the running layout cursor is
skipped with a diagnostic and contributes no entry to the frame type, but
it is NOT excluded from use rewriting: the rewrite loop runs over every
cell, producing exactly one rewrite per cell (skipped or not), so the
skipped cell's address uses are still rewritten to an indexed access at
`(address - min_address) mod 2^32` into a frame that may not contain that
offset. -/
theorem skipped_cells_amended :
    (∀ (minAddr : Nat) (cells : List Cell),
      (rewriteLoop minAddr cells).2.length = cells.length) ∧
    (∀ (running : Nat) (c : Cell) (rest : List Cell),
      c.address_const < running →
      frameGo running (c :: rest) =
        ((frameGo running rest).1, c :: (frameGo running rest).2)) := by
  constructor
  · intro minAddr cells
    have h := rwGo_rws_length minAddr cells [] [] []
    simpa [rewriteLoop] using h
  · intro running c rest h
    conv_lhs => unfold frameGo
    rw [if_neg (by omega), if_pos h]

/-- Witness for C7's amended statement at the concrete skipped cell. -/
theorem skipped_cells_amended_witness :
    (rewriteLoop 0 [cBehind]).2.length = [cBehind].length ∧
    frameGo (sub64 0 128) [cBehind] =
      ((frameGo (sub64 0 128) []).1, cBehind :: (frameGo (sub64 0 128) []).2) :=
  ⟨skipped_cells_amended.1 0 [cBehind],
   skipped_cells_amended.2 (sub64 0 128) cBehind [] (by decide)⟩

/-! ## Claim C1 -/

theorem assocFind_cons_self (cache : List (Nat × Nat)) (a g : Nat) :
    assocFind ((a, g) :: cache) a = some g := by
  simp [assocFind]

theorem assocFind_cons_ne (cache : List (Nat × Nat)) (a b g : Nat)
    (h : a ≠ b) : assocFind ((a, g) :: cache) b = assocFind cache b := by
  simp [assocFind, h]

/-- Invariants of the use-rewriting loop: previously emitted rewrites are
preserved positionally; `offset_cache` entries persist; every cache entry
points at a GEP whose offset constant is `gepOffset` of its address; and
every cell produces exactly the rewrite `(user, addr_width, gep index)`
at its position, with its GEP index recorded in the final cache under the
cell's address. -/
theorem rwGo_master (minAddr : Nat) :
    ∀ (cells : List Cell) (cache : List (Nat × Nat)) (geps : List Nat)
      (rws : List (Nat × Nat × Nat)),
      (∀ a g, assocFind cache a = some g → geps[g]? = some (gepOffset minAddr a)) →
      ((∀ i, i < rws.length →
          (rwGo minAddr cells cache geps rws).2.2[i]? = rws[i]?) ∧
        (∀ a g, assocFind cache a = some g →
          assocFind (rwGo minAddr cells cache geps rws).1 a = some g) ∧
        (∀ a g, assocFind (rwGo minAddr cells cache geps rws).1 a = some g →
          (rwGo minAddr cells cache geps rws).2.1[g]? =
            some (gepOffset minAddr a)) ∧
        (∀ i c, cells[i]? = some c →
          ∃ gi, (rwGo minAddr cells cache geps rws).2.2[rws.length + i]? =
              some (c.user, c.addr_width, gi) ∧
            assocFind (rwGo minAddr cells cache geps rws).1 c.address_const =
              some gi)) := by
  intro cells
  induction cells with
  | nil =>
    intro cache geps rws hinv
    refine ⟨fun i _ => rfl, fun a g h => h, hinv, fun i c hc => ?_⟩
    simp at hc
  | cons c rest ih =>
    intro cache geps rws hinv
    cases hf : assocFind cache c.address_const with
    | some gi =>
      have hred : rwGo minAddr (c :: rest) cache geps rws =
          rwGo minAddr rest cache geps (rws ++ [(c.user, c.addr_width, gi)]) := by
        simp [rwGo, hf]
      rw [hred]
      obtain ⟨ih1, ih2, ih3, ih4⟩ :=
        ih cache geps (rws ++ [(c.user, c.addr_width, gi)]) hinv
      have hlen : (rws ++ [(c.user, c.addr_width, gi)]).length = rws.length + 1 := by
        simp
      refine ⟨?_, ih2, ih3, ?_⟩
      · intro i hi
        rw [ih1 i (by omega), List.getElem?_append_left hi]
      · intro i cc hc
        cases i with
        | zero =>
          simp only [List.getElem?_cons_zero, Option.some_inj] at hc
          subst hc
          refine ⟨gi, ?_, ih2 _ _ hf⟩
          rw [Nat.add_zero]
          rw [ih1 rws.length (by omega)]
          rw [List.getElem?_append_right (Nat.le_refl _)]
          simp
        | succ i =>
          simp only [List.getElem?_cons_succ] at hc
          obtain ⟨gi', h1, h2⟩ := ih4 i cc hc
          refine ⟨gi', ?_, h2⟩
          rw [← h1]
          congr 1
          omega
    | none =>
      have hred : rwGo minAddr (c :: rest) cache geps rws =
          rwGo minAddr rest ((c.address_const, geps.length) :: cache)
            (geps ++ [gepOffset minAddr c.address_const])
            (rws ++ [(c.user, c.addr_width, geps.length)]) := by
        simp [rwGo, hf]
      rw [hred]
      have hinv' : ∀ a g,
          assocFind ((c.address_const, geps.length) :: cache) a = some g →
          (geps ++ [gepOffset minAddr c.address_const])[g]? =
            some (gepOffset minAddr a) := by
        intro a g h
        by_cases hac : c.address_const = a
        · subst hac
          rw [assocFind_cons_self] at h
          obtain rfl : geps.length = g := by simpa using h
          rw [List.getElem?_append_right (Nat.le_refl _)]
          simp
        · rw [assocFind_cons_ne _ _ _ _ hac] at h
          have hlt : g < geps.length :=
            (List.getElem?_eq_some_iff.mp (hinv a g h)).1
          rw [List.getElem?_append_left hlt]
          exact hinv a g h
      obtain ⟨ih1, ih2, ih3, ih4⟩ :=
        ih ((c.address_const, geps.length) :: cache)
          (geps ++ [gepOffset minAddr c.address_const])
          (rws ++ [(c.user, c.addr_width, geps.length)]) hinv'
      have hlen : (rws ++ [(c.user, c.addr_width, geps.length)]).length =
          rws.length + 1 := by simp
      refine ⟨?_, ?_, ih3, ?_⟩
      · intro i hi
        rw [ih1 i (by omega), List.getElem?_append_left hi]
      · intro a g h
        have hac : c.address_const ≠ a := by
          intro he
          rw [he] at hf
          rw [hf] at h
          exact Option.noConfusion h
        refine ih2 a g ?_
        rw [assocFind_cons_ne _ _ _ _ hac]
        exact h
      · intro i cc hc
        cases i with
        | zero =>
          simp only [List.getElem?_cons_zero, Option.some_inj] at hc
          subst hc
          refine ⟨geps.length, ?_, ih2 _ _ (assocFind_cons_self _ _ _)⟩
          rw [Nat.add_zero]
          rw [ih1 rws.length (by omega)]
          rw [List.getElem?_append_right (Nat.le_refl _)]
          simp
        | succ i =>
          simp only [List.getElem?_cons_succ] at hc
          obtain ⟨gi', h1, h2⟩ := ih4 i cc hc
          refine ⟨gi', ?_, h2⟩
          rw [← h1]
          congr 1
          omega

/-- A stack cell at address 16 (4-byte `i32` access, 64-bit address
constant). -/
def cLow : Cell :=
  { type := .int 32, user := 3, address_const := 16, addr_width := 64, size := 4 }

/-- A stack cell at address `2^32 + 16`, more than `2^32` bytes above
`cLow`. -/
def cHigh : Cell :=
  { type := .int 32, user := 4, address_const := 2 ^ 32 + 16, addr_width := 64,
    size := 4 }

/-- Claim C1, as frozen, is false on the code: the GEP index is built as
`llvm::ConstantInt::get(i32_type, address - min_address)`, which truncates
the 64-bit difference to 32 bits.  With `SP_init = 2^32 + 32` and stack
cells at addresses 16 and `2^32 + 16`, `min_address = 16` and the second
cell's rewritten access resolves to offset `(2^32 + 16 - 16) mod 2^32 = 0`
— not the claimed `A - min_address = 2^32`. -/
theorem stack_rewrite_offset_cex :
    minStackAddress (2 ^ 32 + 32) [cLow, cHigh] = 16 ∧
    cHigh.address_const - 16 = 2 ^ 32 ∧
    rewriteLoop 16 [cLow, cHigh] = ([0, 0], [(3, 64, 0), (4, 64, 1)]) ∧
    (0 : Nat) ≠ 2 ^ 32 := by
  decide

/-- Claim C1 (amended): for every stack cell with constant address `A` in
a function whose minimum stack address is `min_address` (the minimum of
the initial stack pointer and all stack-cell addresses), the rewritten
use of `A`'s constant resolves to an indexed access at
`(A - min_address) mod 2^32` bytes into the function's single frame
allocation (the offset is emitted as an `i32` constant), converted back
to an integer of the original address constant's bit width, and all cells
sharing the same address reuse one cached access path (GEP) per distinct
address. -/
theorem stack_rewrite_offsets_amended (spInit : Nat) (cells : List Cell)
    (i j : Nat) (ci cj : Cell)
    (hi : cells[i]? = some ci) (hj : cells[j]? = some cj) :
    ∃ gi gj,
      (rewriteLoop (minStackAddress spInit cells) cells).2[i]? =
          some (ci.user, ci.addr_width, gi) ∧
      (rewriteLoop (minStackAddress spInit cells) cells).1[gi]? =
          some (sub64 ci.address_const (minStackAddress spInit cells) % 2 ^ 32) ∧
      (rewriteLoop (minStackAddress spInit cells) cells).2[j]? =
          some (cj.user, cj.addr_width, gj) ∧
      (ci.address_const = cj.address_const → gi = gj) := by
  obtain ⟨-, -, h3, h4⟩ :=
    rwGo_master (minStackAddress spInit cells) cells [] [] []
      (fun a g h => by simp [assocFind] at h)
  obtain ⟨gi, hgi, hci⟩ := h4 i ci hi
  obtain ⟨gj, hgj, hcj⟩ := h4 j cj hj
  refine ⟨gi, gj, by simpa [rewriteLoop] using hgi, ?_, by simpa [rewriteLoop] using hgj, ?_⟩
  · have := h3 ci.address_const gi hci
    simpa [rewriteLoop, gepOffset] using this
  · intro heq
    rw [heq] at hci
    rw [hci] at hcj
    exact (Option.some_inj.mp hcj)

/-- Witness for C1's amended statement: two cells at the same address
4080 (`SP_init = 4096`) share one cached GEP at offset
`(4080 - 4080) mod 2^32 = 0`. -/
theorem stack_rewrite_offsets_amended_witness :
    ∃ gi gj,
      (rewriteLoop (minStackAddress 4096 [c2a, { c2a with user := 9 }])
          [c2a, { c2a with user := 9 }]).2[0]? = some (c2a.user, c2a.addr_width, gi) ∧
      (rewriteLoop (minStackAddress 4096 [c2a, { c2a with user := 9 }])
          [c2a, { c2a with user := 9 }]).1[gi]? =
        some (sub64 c2a.address_const
          (minStackAddress 4096 [c2a, { c2a with user := 9 }]) % 2 ^ 32) ∧
      (rewriteLoop (minStackAddress 4096 [c2a, { c2a with user := 9 }])
          [c2a, { c2a with user := 9 }]).2[1]? =
        some (({ c2a with user := 9 } : Cell).user,
          ({ c2a with user := 9 } : Cell).addr_width, gj) ∧
      (c2a.address_const = ({ c2a with user := 9 } : Cell).address_const →
        gi = gj) :=
  stack_rewrite_offsets_amended 4096 [c2a, { c2a with user := 9 }] 0 1 c2a
    { c2a with user := 9 } (by decide) (by decide)

/-! ## Claim C4 -/

theorem mem_updateAssoc {l : List (Nat × Nat)} {k v : Nat} {p : Nat × Nat}
    (h : p ∈ updateAssoc l k v) : p ∈ l ∨ p = (k, v) := by
  induction l with
  | nil => simpa [updateAssoc] using h
  | cons hd tl ih =>
    obtain ⟨k', v'⟩ := hd
    unfold updateAssoc at h
    by_cases hk : k' = k
    · rw [if_pos hk] at h
      rcases List.mem_cons.mp h with h1 | h1
      · right; exact h1
      · left; exact List.mem_cons_of_mem _ h1
    · rw [if_neg hk] at h
      rcases List.mem_cons.mp h with h1 | h1
      · left; exact h1 ▸ List.mem_cons_self _ _
      · rcases ih h1 with h2 | h2
        · left; exact List.mem_cons_of_mem _ h2
        · right; exact h2

/-- Every entry that `FindConstantBases` adds to `bases` maps a *direct*
consumer of the constant to the constant: either the very first value was
already the constant (recorded under the initial user), or the constant
is one of the operands the `switch` recursed into from the recorded
user. -/
theorem fcb_mem_aux (g : VGraph) :
    ∀ (fuel user val : Nat) (bases : List (Nat × Nat)) (seen : List Nat)
      (u k : Nat),
      (u, k) ∈ (FindConstantBases g fuel user val bases seen).1 →
      (u, k) ∈ bases ∨
        ((∃ w v, g k = .constInt w v) ∧
          ((u = user ∧ k = val) ∨ k ∈ scannedOperands g u)) := by
  intro fuel
  induction fuel with
  | zero =>
    intro user val bases seen u k h
    left
    simpa [FindConstantBases] using h
  | succ fuel ih =>
    intro user val bases seen u k h
    unfold FindConstantBases at h
    by_cases hseen : seen.contains val
    · rw [if_pos hseen] at h
      left; exact h
    · rw [if_neg hseen] at h
      cases hgv : g val with
      | constInt w v =>
        rw [hgv] at h
        simp only at h
        rcases mem_updateAssoc h with h1 | h1
        · left; exact h1
        · right
          obtain ⟨rfl, rfl⟩ : u = user ∧ k = val :=
            ⟨congrArg Prod.fst h1, congrArg Prod.snd h1⟩
          exact ⟨⟨w, v, hgv⟩, Or.inl ⟨rfl, rfl⟩⟩
      | phi incoming =>
        rw [hgv] at h
        simp only at h
        have aux : ∀ (ops : List Nat) (acc : List (Nat × Nat) × List Nat),
            (∀ x ∈ ops, x ∈ incoming) →
            (u, k) ∈ (ops.foldl
              (fun acc operand =>
                FindConstantBases g fuel val operand acc.1 acc.2) acc).1 →
            (u, k) ∈ acc.1 ∨
              ((∃ w v, g k = .constInt w v) ∧
                ((u = val ∧ k ∈ incoming) ∨ k ∈ scannedOperands g u)) := by
          intro ops
          induction ops with
          | nil => intro acc _ hmem; left; exact hmem
          | cons op rest ihops =>
            intro acc hops hmem
            rcases ihops (FindConstantBases g fuel val op acc.1 acc.2)
                (fun x hx => hops x (List.mem_cons_of_mem _ hx)) hmem with
              h1 | h1
            · rcases ih val op acc.1 acc.2 u k h1 with h2 | h2
              · left; exact h2
              · right
                obtain ⟨hconst, h3⟩ := h2
                refine ⟨hconst, ?_⟩
                rcases h3 with ⟨rfl, rfl⟩ | h4
                · exact Or.inl ⟨rfl, hops _ (List.mem_cons_self _ _)⟩
                · exact Or.inr h4
            · right; exact h1
        rcases aux incoming (bases, val :: seen) (fun x hx => hx) h with
          h1 | h1
        · left; exact h1
        · right
          obtain ⟨hconst, h2⟩ := h1
          refine ⟨hconst, ?_⟩
          rcases h2 with ⟨rfl, h3⟩ | h3
          · right
            simp [scannedOperands, hgv]
            exact h3
          · right; exact h3
      | unop op operand =>
        rw [hgv] at h
        simp only at h
        rcases ih val operand bases (val :: seen) u k h with h1 | h1
        · left; exact h1
        · right
          obtain ⟨hconst, h2⟩ := h1
          refine ⟨hconst, ?_⟩
          rcases h2 with ⟨rfl, rfl⟩ | h3
          · right; simp [scannedOperands, hgv]
          · right; exact h3
      | sub op0 op1 =>
        rw [hgv] at h
        simp only at h
        rcases ih val op0 bases (val :: seen) u k h with h1 | h1
        · left; exact h1
        · right
          obtain ⟨hconst, h2⟩ := h1
          refine ⟨hconst, ?_⟩
          rcases h2 with ⟨rfl, rfl⟩ | h3
          · right; simp [scannedOperands, hgv]
          · right; exact h3
      | addOrOr op0 op1 =>
        rw [hgv] at h
        simp only at h
        rcases ih val op1
            (FindConstantBases g fuel val op0 bases (val :: seen)).1
            (FindConstantBases g fuel val op0 bases (val :: seen)).2 u k h with
          h1 | h1
        · rcases ih val op0 bases (val :: seen) u k h1 with h2 | h2
          · left; exact h2
          · right
            obtain ⟨hconst, h3⟩ := h2
            refine ⟨hconst, ?_⟩
            rcases h3 with ⟨rfl, rfl⟩ | h4
            · right; simp [scannedOperands, hgv]
            · right; exact h4
        · right
          obtain ⟨hconst, h2⟩ := h1
          refine ⟨hconst, ?_⟩
          rcases h2 with ⟨rfl, rfl⟩ | h3
          · right; simp [scannedOperands, hgv]
          · right; exact h3
      | other =>
        rw [hgv] at h
        simp only at h
        left; exact h

/-- A value graph with a consumer instruction (node 0, e.g. a memory
call) whose address operand is node 1, an `Add` of the constant 4096
(node 2) and a non-constant value (node 3). -/
def gAdd : VGraph := fun n =>
  match n with
  | 1 => .addOrOr 2 3
  | 2 => .constInt 64 4096
  | _ => .other

/-- A diamond: the consumer's operand is a PHI (node 1) of two casts
(nodes 2 and 3) of the same constant 7 (node 4). -/
def gDiamond : VGraph := fun n =>
  match n with
  | 1 => .phi [2, 3]
  | 2 => .unop .bitcast 4
  | 3 => .unop .zext 4
  | 4 => .constInt 64 7
  | _ => .other

/-- Claim C4, as frozen, is false on the code, in both halves.
(1) `FindConstantBases(consumer 0, value 1)` on `gAdd` records the
constant against user 1 — the `Add` instruction through which it was
reached — not against the original consumer 0: `bases = {1 ↦ 2}` and no
entry for 0 exists.  (2) The seen-set is the C++
`std::unordered_set<llvm::Value *> &seen`, keyed by value alone: on
`gDiamond` the constant (node 4) is reachable from two different
consumers (nodes 2 and 3), but only `{2 ↦ 4}` is recorded — the second
consumer's visit hits the seen-set and records nothing. -/
theorem find_constant_bases_consumer_cex :
    (FindConstantBases gAdd 10 0 1 [] []).1 = [(1, 2)] ∧
    ¬ (0, 2) ∈ (FindConstantBases gAdd 10 0 1 [] []).1 ∧
    (FindConstantBases gDiamond 10 0 1 [] []).1 = [(2, 4)] ∧
    ¬ (3, 4) ∈ (FindConstantBases gDiamond 10 0 1 [] []).1 := by
  decide

/-- Claim C4 (amended): in the backward constant-base search, every
constant integer base reached is recorded against the *immediate*
consumer of the constant — the merge point or arithmetic instruction
whose operand the constant is (or the original consumer when the searched
value itself is the constant) — and the recursion's seen-set is keyed by
the value alone, so a value already visited is returned from immediately,
no matter which consumer reaches it: the same value reached from
different consumers is NOT recorded separately. -/
theorem find_constant_bases_amended :
    (∀ (g : VGraph) (fuel user val : Nat) (bases : List (Nat × Nat))
        (seen : List Nat), seen.contains val = true →
        FindConstantBases g fuel user val bases seen = (bases, seen)) ∧
    (∀ (g : VGraph) (fuel user val : Nat) (bases : List (Nat × Nat))
        (seen : List Nat) (u k : Nat),
        (u, k) ∈ (FindConstantBases g fuel user val bases seen).1 →
        (u, k) ∈ bases ∨
          ((∃ w v, g k = .constInt w v) ∧
            ((u = user ∧ k = val) ∨ k ∈ scannedOperands g u))) := by
  constructor
  · intro g fuel user val bases seen h
    cases fuel with
    | zero => rfl
    | succ fuel => unfold FindConstantBases; rw [if_pos h]
  · exact fun g => fcb_mem_aux g

/-- Witness for C4's amended statement: the seen-set cuts off a re-visit
of node 2, and the recorded entry `(1, 2)` of the `gAdd` search indeed
names a direct consumer of the constant. -/
theorem find_constant_bases_amended_witness :
    FindConstantBases gAdd 10 0 2 [] [2] = ([], [2]) ∧
    ((1, 2) ∈ ([] : List (Nat × Nat)) ∨
      ((∃ w v, gAdd 2 = VNode.constInt w v) ∧
        ((1 = 0 ∧ 2 = 1) ∨ 2 ∈ scannedOperands gAdd 1))) :=
  ⟨find_constant_bases_amended.1 gAdd 10 0 2 [] [2] (by decide),
   find_constant_bases_amended.2 gAdd 10 0 1 [] [] 1 2 (by decide)⟩

/-! ## Claims C8 and C9 -/

/-- Accumulator form of the base-classification loop: appending each
mapped element to the first or second list according to the predicate is
filtering-then-mapping. -/
theorem foldl_classify (p : Nat × Nat → Bool) (f : Nat × Nat → Cell) :
    ∀ (l : List (Nat × Nat)) (acc : List Cell × List Cell),
      l.foldl
        (fun acc b => if p b then (acc.1 ++ [f b], acc.2)
          else (acc.1, acc.2 ++ [f b])) acc =
      (acc.1 ++ (l.filter p).map f,
        acc.2 ++ (l.filter (fun b => ! p b)).map f) := by
  intro l
  induction l with
  | nil => intro acc; simp
  | cons b rest ih =>
    intro acc
    by_cases hb : p b
    · simp [hb, ih]
    · simp [hb, ih]

/-- The scan of one site is the classification of the `bases` entries:
its stack list is the stack-classified entries mapped to cells, its
global list the rest. -/
theorem site_eq_classify (isStack : Nat → Bool) (g : VGraph) (fuel : Nat)
    (instId : Nat) (ty : LTy) (addrVal : Nat) :
    FindMemoryReferencesSite isStack g fuel instId ty addrVal =
      (((FindConstantBases g fuel instId addrVal [] []).1.filter
          (fun b => isStack (constValue g b.2))).map (siteCell g ty),
        ((FindConstantBases g fuel instId addrVal [] []).1.filter
          (fun b => ! isStack (constValue g b.2))).map (siteCell g ty)) := by
  have h := foldl_classify (fun b => isStack (constValue g b.2)) (siteCell g ty)
    ((FindConstantBases g fuel instId addrVal [] []).1) ([], [])
  simp only [List.nil_append] at h
  exact h

/-- A value graph whose consumer operand is a PHI (node 1) of two
constants: 4096 (node 2, stack-classified below) and 8192 (node 3,
not stack-classified). -/
def gPhiTwoConsts : VGraph := fun n =>
  match n with
  | 1 => .phi [2, 3]
  | 2 => .constInt 64 4096
  | 3 => .constInt 64 8192
  | _ => .other

/-- Claim C8, as frozen, is false on the code: `bases` is keyed by the
consumer (`std::unordered_map<llvm::User *, llvm::ConstantInt *>`), not
by the constant, so two distinct constant bases reached through the same
immediate consumer collapse to one entry (the later overwrites the
earlier).  On `gPhiTwoConsts` — a single access whose address PHI reaches
the stack-classified constant 4096 AND the non-stack constant 8192 — the
search records only `{1 ↦ 8192}`; the scan then emits a single global
cell and NO stack cell, not one cell per distinct base recorded
simultaneously in both lists. -/
theorem site_multi_base_cex :
    gPhiTwoConsts 2 = .constInt 64 4096 ∧
    gPhiTwoConsts 3 = .constInt 64 8192 ∧
    (FindConstantBases gPhiTwoConsts 10 0 1 [] []).1 = [(1, 3)] ∧
    (FindMemoryReferencesSite (fun a => a == 4096) gPhiTwoConsts 10 0
      (.int 32) 1).1 = [] ∧
    (FindMemoryReferencesSite (fun a => a == 4096) gPhiTwoConsts 10 0
      (.int 32) 1).2 =
      [{ type := .int 32, user := 1, address_const := 8192, addr_width := 64,
         size := 4 }] := by
  decide

/-- Claim C8 (amended): one scanned site produces one Cell per entry of
the consumer-keyed base map (which keeps, per immediate consumer, only
the most recently recorded constant), and each entry is classified
independently via the byte map: the stack list is exactly the
stack-classified entries and the global list exactly the rest, so a site
whose base map holds a stack-classified constant under one consumer and a
non-stack-classified constant under another is recorded simultaneously as
a stack cell and as a global cell. -/
theorem site_classification_amended :
    (∀ (isStack : Nat → Bool) (g : VGraph) (fuel instId : Nat) (ty : LTy)
        (addrVal : Nat),
      FindMemoryReferencesSite isStack g fuel instId ty addrVal =
        (((FindConstantBases g fuel instId addrVal [] []).1.filter
            (fun b => isStack (constValue g b.2))).map (siteCell g ty),
          ((FindConstantBases g fuel instId addrVal [] []).1.filter
            (fun b => ! isStack (constValue g b.2))).map (siteCell g ty))) ∧
    (∀ (isStack : Nat → Bool) (g : VGraph) (fuel instId : Nat) (ty : LTy)
        (addrVal : Nat) (u1 k1 u2 k2 : Nat),
      (u1, k1) ∈ (FindConstantBases g fuel instId addrVal [] []).1 →
      isStack (constValue g k1) = true →
      (u2, k2) ∈ (FindConstantBases g fuel instId addrVal [] []).1 →
      isStack (constValue g k2) = false →
      (FindMemoryReferencesSite isStack g fuel instId ty addrVal).1 ≠ [] ∧
      (FindMemoryReferencesSite isStack g fuel instId ty addrVal).2 ≠ []) := by
  refine ⟨site_eq_classify, ?_⟩
  intro isStack g fuel instId ty addrVal u1 k1 u2 k2 h1 hs1 h2 hs2
  rw [site_eq_classify]
  constructor
  · refine List.ne_nil_of_mem (a := siteCell g ty (u1, k1)) ?_
    exact List.mem_map_of_mem _ (List.mem_filter.mpr ⟨h1, by simpa using hs1⟩)
  · refine List.ne_nil_of_mem (a := siteCell g ty (u2, k2)) ?_
    exact List.mem_map_of_mem _ (List.mem_filter.mpr ⟨h2, by simpa using hs2⟩)

/-- A graph holding two constants reached through two distinct immediate
consumers: a PHI (node 1) of a bitcast (node 2) of constant 4096 (node 4)
and a zext (node 3) of constant 8192 (node 5). -/
def gTwoConsumers : VGraph := fun n =>
  match n with
  | 1 => .phi [2, 3]
  | 2 => .unop .bitcast 4
  | 3 => .unop .zext 5
  | 4 => .constInt 64 4096
  | 5 => .constInt 64 8192
  | _ => .other

/-- Witness for C8's amended statement: on `gTwoConsumers` the base map
is `{2 ↦ 4096, 3 ↦ 8192}` and the site is recorded in both lists. -/
theorem site_classification_amended_witness :
    (FindMemoryReferencesSite (fun a => a == 4096) gTwoConsumers 10 0
      (.int 32) 1).1 ≠ [] ∧
    (FindMemoryReferencesSite (fun a => a == 4096) gTwoConsumers 10 0
      (.int 32) 1).2 ≠ [] :=
  site_classification_amended.2 (fun a => a == 4096) gTwoConsumers 10 0
    (.int 32) 1 2 4 3 5 (by decide) (by decide) (by decide) (by decide)

/-- A trivial graph: the address value (node 1) is itself the 64-bit
constant 1000. -/
def gConstAddr : VGraph := fun n =>
  match n with
  | 1 => .constInt 64 1000
  | _ => .other

/-- The cell the scan records for a 65536-byte access
(`[65536 x i8]`) at constant address 1000: its `uint16_t` size wraps to
0. -/
def hugeCell : Cell :=
  { type := .arr 65536 (.int 8), user := 0, address_const := 1000,
    addr_width := 64, size := 0 }

/-- Claim C9 (confirmed): `Cell::size` is a `uint16_t`, so every scanned
cell records `getTypeAllocSize(type) mod 2^16`; a 65536-byte accessed
type (`[65536 x i8]`) wraps to size 0, and that wrapped size is what
`max_stack_address` (and the frame layout) consume: the 65536-byte access
at address 1000 leaves `max_stack_address` at 1000 instead of
1000 + 65536. -/
theorem cell_size_wraps :
    (∀ (isStack : Nat → Bool) (g : VGraph) (fuel instId : Nat) (ty : LTy)
        (addrVal : Nat) (c : Cell),
      c ∈ (FindMemoryReferencesSite isStack g fuel instId ty addrVal).1 ++
          (FindMemoryReferencesSite isStack g fuel instId ty addrVal).2 →
      c.size = allocSize ty % 2 ^ 16) ∧
    allocSize (.arr 65536 (.int 8)) = 65536 ∧
    allocSize (.arr 65536 (.int 8)) % 2 ^ 16 = 0 ∧
    FindMemoryReferencesSite (fun _ => true) gConstAddr 10 0
      (.arr 65536 (.int 8)) 1 = ([hugeCell], []) ∧
    maxStackAddress 1000 [hugeCell] = 1000 := by
  refine ⟨?_, by decide, by decide, by decide, by decide⟩
  intro isStack g fuel instId ty addrVal c hc
  rw [site_eq_classify] at hc
  rcases List.mem_append.mp hc with h | h <;>
    · obtain ⟨b, _, rfl⟩ := List.mem_map.mp h
      rfl

/-- Witness for C9's universally quantified size property at the concrete
huge-type scan. -/
theorem cell_size_wraps_witness :
    hugeCell.size = allocSize (.arr 65536 (.int 8)) % 2 ^ 16 :=
  cell_size_wraps.1 (fun _ => true) gConstAddr 10 0 (.arr 65536 (.int 8)) 1
    hugeCell (by decide)

/-! ## Claim C6 -/

/-- The pointer type a built address value points with: the target type of
the `CreateBitCast`/`CreateIntToPtr` the lowering emits. -/
def pointerTargetType : MVal → Option LTy
  | .bitcast _ t => some t
  | .intToPtr _ t => some t
  | _ => none

/-- Claim C6 (confirmed, under the lowering's normal operation — the
named intrinsic exists as a declaration): for every call to a read-memory
intrinsic, all uses of the call are replaced by the value loaded through
a pointer typed `val_type *` (with an `FPTrunc` to the intrinsic's return
type inserted exactly when `val_type` is the 80-bit `x86_fp80`) and the
call is erased; for every call to a write-memory intrinsic and to a
barrier intrinsic, all uses of the call are replaced by the call's first
argument (the pre-call memory-state value) and the call is erased. -/
theorem lower_mem_ops_claim :
    (∀ (m : MModule) (name : String) (valType : LTy) (f : MFunc),
      getFunction m name = some f → f.isDeclaration = true →
      ReplaceMemReadOp m name valType =
        .ok (eraseCallsTo m name,
          (CallersOf m name).map (lowerReadCall f valType)) ∧
      ∀ c, (lowerReadCall f valType c).erased = true ∧
        ∃ p as, pointerTargetType p = some (.ptr valType as) ∧
          (lowerReadCall f valType c).replacedWith =
            (if valType = .fp80 then .fptrunc (.load p) f.retTy
             else .load p)) ∧
    (∀ (m : MModule) (name : String) (valType : LTy) (f : MFunc),
      getFunction m name = some f → f.isDeclaration = true →
      ReplaceMemWriteOp m name valType =
        .ok (eraseCallsTo m name,
          (CallersOf m name).map (lowerWriteCall valType)) ∧
      ∀ c, (lowerWriteCall valType c).erased = true ∧
        (lowerWriteCall valType c).replacedWith = c.args.getD 0 (.rawVal 0)) ∧
    (∀ (m : MModule) (name : String) (f : MFunc),
      getFunction m name = some f → f.isDeclaration = true →
      ReplaceBarrier m name =
        .ok (eraseCallsTo m name, (CallersOf m name).map lowerBarrierCall) ∧
      ∀ c, (lowerBarrierCall c).erased = true ∧
        (lowerBarrierCall c).replacedWith = c.args.getD 0 (.rawVal 0)) := by
  refine ⟨?_, ?_, ?_⟩
  · intro m name valType f hf hdecl
    refine ⟨by simp [ReplaceMemReadOp, hf, hdecl], ?_⟩
    intro c
    have hpt : ∀ addr : MVal, ∃ as,
        pointerTargetType (mkMemOpPtr valType addr) = some (.ptr valType as) := by
      intro addr
      cases addr <;> exact ⟨_, rfl⟩
    obtain ⟨as, has⟩ := hpt (c.args.getD 1 (.rawVal 0))
    exact ⟨rfl, mkMemOpPtr valType (c.args.getD 1 (.rawVal 0)), as, has, rfl⟩
  · intro m name valType f hf hdecl
    exact ⟨by simp [ReplaceMemWriteOp, hf, hdecl], fun c => ⟨rfl, rfl⟩⟩
  · intro m name f hf hdecl
    exact ⟨by simp [ReplaceBarrier, hf, hdecl], fun c => ⟨rfl, rfl⟩⟩

/-- A declared (bodyless) read intrinsic of 32-bit integer type. -/
def fRead32 : MFunc :=
  { name := "__remill_read_memory_32", isDeclaration := true, retTy := .int 32 }

/-- A concrete module with one declared read intrinsic, one declared
write intrinsic, one declared barrier and one call to each. -/
def mEx : MModule :=
  { funcs :=
      [ fRead32
      , { name := "__remill_write_memory_32", isDeclaration := true,
          retTy := .int 32 }
      , { name := "__remill_barrier_load_load", isDeclaration := true,
          retTy := .int 32 } ]
    calls :=
      [ { callee := "__remill_read_memory_32",
          args := [.rawVal 10, .rawVal 11] }
      , { callee := "__remill_write_memory_32",
          args := [.rawVal 20, .rawVal 21, .rawVal 22] }
      , { callee := "__remill_barrier_load_load", args := [.rawVal 30] } ] }

/-- Witness for C6 at the concrete module `mEx`. -/
theorem lower_mem_ops_claim_witness :
    (ReplaceMemReadOp mEx "__remill_read_memory_32" (.int 32) =
      .ok (eraseCallsTo mEx "__remill_read_memory_32",
        (CallersOf mEx "__remill_read_memory_32").map
          (lowerReadCall fRead32 (.int 32))) ∧
      ∀ c, (lowerReadCall fRead32 (.int 32) c).erased = true ∧
        ∃ p as, pointerTargetType p = some (.ptr (.int 32) as) ∧
          (lowerReadCall fRead32 (.int 32) c).replacedWith =
            (if (.int 32 : LTy) = .fp80 then
              .fptrunc (.load p) fRead32.retTy else .load p)) ∧
    (ReplaceMemWriteOp mEx "__remill_write_memory_32" (.int 32) =
      .ok (eraseCallsTo mEx "__remill_write_memory_32",
        (CallersOf mEx "__remill_write_memory_32").map
          (lowerWriteCall (.int 32))) ∧
      ∀ c, (lowerWriteCall (.int 32) c).erased = true ∧
        (lowerWriteCall (.int 32) c).replacedWith = c.args.getD 0 (.rawVal 0)) ∧
    (ReplaceBarrier mEx "__remill_barrier_load_load" =
      .ok (eraseCallsTo mEx "__remill_barrier_load_load",
        (CallersOf mEx "__remill_barrier_load_load").map lowerBarrierCall) ∧
      ∀ c, (lowerBarrierCall c).erased = true ∧
        (lowerBarrierCall c).replacedWith = c.args.getD 0 (.rawVal 0)) :=
  ⟨lower_mem_ops_claim.1 mEx "__remill_read_memory_32" (.int 32) _ rfl rfl,
   lower_mem_ops_claim.2.1 mEx "__remill_write_memory_32" (.int 32) _ rfl rfl,
   lower_mem_ops_claim.2.2 mEx "__remill_barrier_load_load" _ rfl rfl⟩

/-! ## Claim C10 -/

theorem isErr_stepMemOp (m : MModule) (op : String × MemOpKind) :
    isErr (stepMemOp m op) = hasDefinedFunc m op.1 := by
  obtain ⟨name, kind⟩ := op
  cases kind with
  | read t =>
    simp only [stepMemOp, ReplaceMemReadOp, hasDefinedFunc]
    cases hf : getFunction m name with
    | none => rfl
    | some f => cases hd : f.isDeclaration <;> simp [hd, isErr, Except.map]
  | write t =>
    simp only [stepMemOp, ReplaceMemWriteOp, hasDefinedFunc]
    cases hf : getFunction m name with
    | none => rfl
    | some f => cases hd : f.isDeclaration <;> simp [hd, isErr, Except.map]
  | barrier =>
    simp only [stepMemOp, ReplaceBarrier, hasDefinedFunc]
    cases hf : getFunction m name with
    | none => rfl
    | some f => cases hd : f.isDeclaration <;> simp [hd, isErr, Except.map]

theorem funcs_stepMemOp (m m' : MModule) (op : String × MemOpKind)
    (h : stepMemOp m op = .ok m') : m'.funcs = m.funcs := by
  obtain ⟨name, kind⟩ := op
  cases kind with
  | read t =>
    simp only [stepMemOp, ReplaceMemReadOp] at h
    cases hf : getFunction m name <;> rw [hf] at h
    · simp [Except.map] at h
      rw [← h]
    · rename_i f
      cases hd : f.isDeclaration <;> simp [hd, Except.map] at h
      rw [← h]
      rfl
  | write t =>
    simp only [stepMemOp, ReplaceMemWriteOp] at h
    cases hf : getFunction m name <;> rw [hf] at h
    · simp [Except.map] at h
      rw [← h]
    · rename_i f
      cases hd : f.isDeclaration <;> simp [hd, Except.map] at h
      rw [← h]
      rfl
  | barrier =>
    simp only [stepMemOp, ReplaceBarrier] at h
    cases hf : getFunction m name <;> rw [hf] at h
    · simp [Except.map] at h
      rw [← h]
    · rename_i f
      cases hd : f.isDeclaration <;> simp [hd, Except.map] at h
      rw [← h]
      rfl

theorem hasDefinedFunc_congr (m m' : MModule) (hf : m'.funcs = m.funcs)
    (name : String) : hasDefinedFunc m' name = hasDefinedFunc m name := by
  simp [hasDefinedFunc, getFunction, hf]

theorem foldlM_isErr (ops : List (String × MemOpKind)) :
    ∀ m : MModule,
      isErr (ops.foldlM stepMemOp m) = true ↔
        ∃ p ∈ ops, hasDefinedFunc m p.1 = true := by
  induction ops with
  | nil => intro m; simp [List.foldlM, isErr, pure, Except.pure]
  | cons op rest ih =>
    intro m
    rw [List.foldlM_cons]
    cases hstep : stepMemOp m op with
    | error e =>
      have herr : hasDefinedFunc m op.1 = true := by
        rw [← isErr_stepMemOp, hstep]; rfl
      constructor
      · intro _
        exact ⟨op, List.mem_cons_self _ _, herr⟩
      · intro _
        rfl
    | ok m' =>
      have hok : hasDefinedFunc m op.1 = false := by
        rw [← isErr_stepMemOp, hstep]; rfl
      have hfun := funcs_stepMemOp m m' op hstep
      have hbind : (Except.ok m' >>= fun m'' => rest.foldlM stepMemOp m'') =
          rest.foldlM stepMemOp m' := rfl
      rw [hbind, ih m']
      constructor
      · intro ⟨p, hp, hdef⟩
        exact ⟨p, List.mem_cons_of_mem _ hp,
          (hasDefinedFunc_congr m m' hfun p.1) ▸ hdef⟩
      · intro ⟨p, hp, hdef⟩
        rcases List.mem_cons.mp hp with rfl | hp'
        · rw [hok] at hdef
          exact absurd hdef (by simp)
        · exact ⟨p, hp', (hasDefinedFunc_congr m m' hfun p.1).symm ▸ hdef⟩

/-- Claim C10 (confirmed): memory-op lowering aborts the whole pipeline
(the `CHECK(func->isDeclaration())` fails) if and only if some function
bearing one of the twenty recognized intrinsic names exists in the module
and has a body (is not a pure declaration); and when no function of a
given name exists, the lowering of that intrinsic returns the module
unchanged, with no calls lowered. -/
theorem lower_mem_ops_abort_iff :
    (∀ m : MModule,
      isErr (LowerMemOps m) = true ↔ ∃ p ∈ memOps, hasDefinedFunc m p.1 = true) ∧
    (∀ (m : MModule) (name : String) (valType : LTy),
      getFunction m name = none →
      ReplaceMemReadOp m name valType = .ok (m, []) ∧
      ReplaceMemWriteOp m name valType = .ok (m, []) ∧
      ReplaceBarrier m name = .ok (m, [])) := by
  constructor
  · intro m
    exact foldlM_isErr memOps m
  · intro m name valType h
    exact ⟨by simp [ReplaceMemReadOp, h], by simp [ReplaceMemWriteOp, h],
      by simp [ReplaceBarrier, h]⟩

/-- A module whose `__remill_barrier_atomic_end` has a body: lowering
must abort on it. -/
def mBad : MModule :=
  { funcs := [{ name := "__remill_barrier_atomic_end", isDeclaration := false,
                retTy := .int 32 }]
    calls := [] }

/-- Witness for C10: on `mBad` the abort condition is both decided true
by the iff and exhibited; on `mEx` a missing name is skipped leaving the
module unchanged. -/
theorem lower_mem_ops_abort_iff_witness :
    (isErr (LowerMemOps mBad) = true ↔
      ∃ p ∈ memOps, hasDefinedFunc mBad p.1 = true) ∧
    (ReplaceMemReadOp mEx "__remill_read_memory_64" (.int 64) =
        .ok (mEx, []) ∧
      ReplaceMemWriteOp mEx "__remill_read_memory_64" (.int 64) =
        .ok (mEx, []) ∧
      ReplaceBarrier mEx "__remill_read_memory_64" = .ok (mEx, [])) :=
  ⟨lower_mem_ops_abort_iff.1 mBad,
   lower_mem_ops_abort_iff.2 mEx "__remill_read_memory_64" (.int 64)
     (by decide)⟩

end AnvillAnalyze
